import Mathlib

/-!
Shallow embedding of `plot-elf.py` (felsenhower/elf-plotter) together with
proofs of specification claims about it.

Python values are modelled as follows: byte buffers become `List Nat`
(one entry per byte), RGB pixel buffers become `List (Nat × Nat × Nat)`,
Python dicts become association lists in insertion order, Python sets become
lists considered up to membership, and fatal `error` calls (which print a
message and exit with status 1) become `Except.error msg`.

External collaborators of the repository (the `hashlib.md5` digest, the
`matplotlib` rainbow palette, Python's `re.match`, and `os.path.isfile`) are
parameters of the embedding: the source only consumes them.
-/

set_option autoImplicit false

namespace ElfPlotter

/-- An RGB color as produced by `cm.rainbow(...)[:,0:3]`: a triple of channel
scalars, modelled as exact rationals. -/
abbrev RGB := ℚ × ℚ × ℚ

/-- One pixel of a 3-channel `uint8` buffer. -/
abbrev Pix := Nat × Nat × Nat

/-- A part `(name, offset, length)` as built by `get_parts` in `plot-elf.py`. -/
structure Part where
  name : String
  offset : Nat
  length : Nat
deriving DecidableEq, Repr

/-- Python `s.startswith(pre)`, computed on the underlying character list. -/
def strStartsWith (s pre : String) : Bool := pre.data.isPrefixOf s.data

/-- Python `s.endswith(suf)`, computed on the underlying character list. -/
def strEndsWith (s suf : String) : Bool := suf.data.isSuffixOf s.data

/-- Python `s[1:-1]`: drop the first and the last character. -/
def strInner (s : String) : String := ⟨(s.data.drop 1).dropLast⟩

/-- Python `s[n:]`: drop the first `n` characters. -/
def strDrop (s : String) (n : Nat) : String := ⟨s.data.drop n⟩

/-- Worker for `splitComma`, accumulating the current field in reverse. -/
def splitCommaAux : List Char → List Char → List String
  | [], acc => [⟨acc.reverse⟩]
  | c :: rest, acc =>
    if c = ',' then ⟨acc.reverse⟩ :: splitCommaAux rest []
    else splitCommaAux rest (c :: acc)

/-- Python `s.split(",")` (a one-character separator never raises, and
`"".split(",") = [""]`). -/
def splitComma (s : String) : List String := splitCommaAux s.data []

/-- The selector test performed in the inner loop of `filter_parts`
(`plot-elf.py` lines 108-114): a `/…/`-delimited selector is handed to the
regex matcher on the inner text, any other selector is compared for string
equality with the part name. -/
def selMatches (rmatch : String → String → Bool) (filt name : String) : Bool :=
  if strStartsWith filt "/" && strEndsWith filt "/" then rmatch (strInner filt) name
  else filt == name

/-- `filter_parts` (`plot-elf.py` lines 95-115).  The Python `re.match` is a
library external to the repository, so the embedding takes the matcher
`rmatch : pattern → subject → Bool` as a parameter.  The nested loops append
the current part to `result` once for every selector that accepts it. -/
def filter_parts (rmatch : String → String → Bool) (parts : List Part)
    (selected_parts : List String) : List Part :=
  if selected_parts.length = 0 then parts
  else
    parts.foldl (fun result p =>
      selected_parts.foldl (fun result filt =>
        if strStartsWith filt "/" && strEndsWith filt "/" then
          (if rmatch (strInner filt) p.name then result ++ [p] else result)
        else
          (if filt == p.name then result ++ [p] else result)) result) []

/-- Python `re.match` restricted to patterns containing no regex
metacharacters: such a pattern matches a subject iff it is a prefix of the
subject (`re.match` anchors at the start and is not a full match). -/
def reMatchLiteral (pattern subject : String) : Bool := strStartsWith subject pattern

/-- The fields of the parsed ELF structural directory that `get_parts` reads:
`elf.header.e_ehsize`, the `(s.name, s.data_size)` pairs of
`elf.iter_sections()` in order, and the absolute program/section header table
fields of the header. -/
structure ElfDirectory where
  e_ehsize : Nat
  sections : List (String × Nat)
  e_phoff : Nat
  e_shoff : Nat
  e_phentsize : Nat
  e_shentsize : Nat
deriving DecidableEq, Repr

/-- The section loop of `get_parts` (`plot-elf.py` lines 134-137): each
section is appended at `part_offsets[-1] + part_lengths[-1]`, the running
offset accumulator, with the section's `data_size` as length. -/
def sectionLoop (prevOffset prevLength : Nat) : List (String × Nat) → List Part
  | [] => []
  | (n, sz) :: rest =>
    ⟨n, prevOffset + prevLength, sz⟩ :: sectionLoop (prevOffset + prevLength) sz rest

/-- The full part list built by `get_parts` before zero-length removal and
filtering (`plot-elf.py` lines 131-141): `Ehdr` at offset `0`, the sections at
running offsets, then `Phdr` and `Shdr` at the directory's absolute fields. -/
def unfiltered_parts (dir : ElfDirectory) : List Part :=
  ⟨"Ehdr", 0, dir.e_ehsize⟩ :: sectionLoop 0 dir.e_ehsize dir.sections
    ++ [⟨"Phdr", dir.e_phoff, dir.e_phentsize⟩, ⟨"Shdr", dir.e_shoff, dir.e_shentsize⟩]

/-- `get_parts` before filtering (`plot-elf.py` lines 131-142): the built part
list with every zero-length part removed. -/
def extract_parts (dir : ElfDirectory) : List Part :=
  (unfiltered_parts dir).filter (fun p => 0 < p.length)

/-- Message of the fatal `error` call at `plot-elf.py` line 145.  Python
formats the selector set with its `set` repr (whose element order is
unspecified); the embedding renders the selector list in list order. -/
def noPartsMsg (f : String) (sels : List String) : String :=
  "No parts in \"" ++ f ++ "\" match selection \x7b" ++ ", ".intercalate sels ++ "\x7d"

/-- `get_parts` (`plot-elf.py` lines 118-147) over all loaded files: extract,
drop zero-length parts, filter, and abort fatally on the first file whose
filtered part list is empty (`error` exits the process immediately). -/
def get_parts (rmatch : String → String → Bool) (options : String → List String) :
    List (String × ElfDirectory) → Except String (List (String × List Part))
  | [] => .ok []
  | (f, dir) :: rest =>
    let parts := filter_parts rmatch (extract_parts dir) (options f)
    if parts.length = 0 then .error (noPartsMsg f (options f))
    else
      match get_parts rmatch options rest with
      | .error e => .error e
      | .ok r => .ok ((f, parts) :: r)

/-- `num_colors` (`plot-elf.py` line 150). -/
def num_colors : Nat := 3600

/-- Python dict lookup (`text in saved_colors` / `saved_colors[text]`),
on an association list whose keys are unique. -/
def dictLookup {α : Type} : List (String × α) → String → Option α
  | [], _ => none
  | (k, v) :: rest, t => if k = t then some v else dictLookup rest t

/-- `get_color` (`plot-elf.py` lines 155-166).  `hashlib.md5` (as an integer,
via `int(hexdigest, 16)`) and the palette `colors = cm.rainbow(...)` are
external libraries, taken as parameters `md5` and `colors`.  The module-level
dict `saved_colors` is threaded explicitly as an association list in
insertion order. -/
def get_color (md5 : String → Nat) (colors : Nat → RGB)
    (saved_colors : List (String × RGB)) (text : String) :
    RGB × List (String × RGB) :=
  match dictLookup saved_colors text with
  | some color => (color, saved_colors)
  | none =>
    let color := colors (md5 text % num_colors)
    (color, saved_colors ++ [(text, color)])

/-- A run of `get_color` calls starting from the initial empty
`saved_colors = dict()` (`plot-elf.py` line 153), returning the final cache. -/
def runCalls (md5 : String → Nat) (colors : Nat → RGB) (calls : List String) :
    List (String × RGB) :=
  calls.foldl (fun saved t => (get_color md5 colors saved t).2) []

/-- Invariant of the color cache: every saved entry is the palette entry the
MD5 hash of its name selects.  Holds for every cache reachable from the
initial empty dict. -/
def RegistryOK (md5 : String → Nat) (colors : Nat → RGB)
    (saved : List (String × RGB)) : Prop :=
  ∀ e ∈ saved, e.2 = colors (md5 e.1 % num_colors)

/-- `astype("uint8")` applied to `byte * channel` (`plot-elf.py` line 189):
the non-negative product is truncated to an integer and reduced to the
`uint8` range. -/
def chanMul (b : Nat) (c : ℚ) : Nat := (⌊(b : ℚ) * c⌋).toNat % 256

/-- Element-wise pixel times color, per channel (`plot-elf.py` line 189). -/
def pixMul (q : Pix) (c : RGB) : Pix :=
  (chanMul q.1 c.1, chanMul q.2.1 c.2.1, chanMul q.2.2 c.2.2)

/-- Worker for `writeRange`: positions are compared against the running index
`i`, mirroring the numpy slice assignment which touches exactly the indices
in `[offset, offset+length)` that exist in the buffer. -/
def writeRangeGo (offset length : Nat) (color : RGB) : Nat → List Pix → List Pix
  | _, [] => []
  | i, q :: rest =>
    (if offset ≤ i ∧ i < offset + length then pixMul q color else q) ::
      writeRangeGo offset length color (i + 1) rest

/-- The slice assignment `bytes[offset : offset+length] =
(bytes[offset : offset+length] * color).astype("uint8")`
(`plot-elf.py` line 189). -/
def writeRange (px : List Pix) (offset length : Nat) (color : RGB) : List Pix :=
  writeRangeGo offset length color 0 px

/-- The part loop of `colorize_data` (`plot-elf.py` lines 187-190): look up
the color, multiply the part's pixel range, and record one legend entry; the
color cache is threaded through the calls.  Returns (pixels, legend, cache). -/
def colorizeGo (md5 : String → Nat) (colors : Nat → RGB) :
    List Pix → List Part → List (String × RGB) →
      List Pix × List (String × RGB) × List (String × RGB)
  | px, [], saved => (px, [], saved)
  | px, p :: rest, saved =>
    let cs := get_color md5 colors saved p.name
    let r := colorizeGo md5 colors (writeRange px p.offset p.length cs.1) rest cs.2
    (r.1, (p.name, cs.1) :: r.2.1, r.2.2)

/-- The per-file body of `colorize_data` (`plot-elf.py` lines 182-192): the
grayscale broadcast `np.stack((bytes,bytes,bytes), axis=1)` followed by the
part loop.  The legend entry for a part is modelled by its color (the source
wraps it in a `Line2D` carrying exactly that color). -/
def colorize_data (md5 : String → Nat) (colors : Nat → RGB)
    (byte_data : List Nat) (parts : List Part) (saved : List (String × RGB)) :
    List Pix × List (String × RGB) × List (String × RGB) :=
  colorizeGo md5 colors (byte_data.map fun b => (b, b, b)) parts saved

/-- Index `i` lies in the byte range of part `p`. -/
def inPart (p : Part) (i : Nat) : Prop := p.offset ≤ i ∧ i < p.offset + p.length

/-- The per-file body of `strip_data` (`plot-elf.py` lines 205-214): when the
strip flag is set, concatenate the parts' pixel ranges (numpy slices clamp at
the buffer end) starting from the empty buffer; otherwise keep the buffer. -/
def strip_data (byte_data : List Pix) (parts : List Part) (strip : Bool) :
    List Pix :=
  if strip then
    parts.foldl
      (fun stripped_bytes p =>
        stripped_bytes ++ (byte_data.drop p.offset).take p.length) []
  else byte_data

/-- `get_max_length` (`plot-elf.py` lines 69-80). -/
def get_max_length (arrays : List (List Pix)) : Nat :=
  arrays.foldl (fun max_length a => if a.length > max_length then a.length else max_length) 0

/-- `pad_array` (`plot-elf.py` lines 83-92): `np.zeros((length,3))` followed
by `result[:len(array)] = array`.  When the array is longer than the target
the numpy assignment raises (broadcast error), modelled by `none`. -/
def pad_array (array : List Pix) (length : Nat) : Option (List Pix) :=
  if array.length ≤ length then
    some (array ++ List.replicate (length - array.length) (0, 0, 0))
  else none

/-- The width computation of `plot_elf_files` (`plot-elf.py` lines 233-234):
`sqrt_len = int(math.sqrt(len))` then `w = int(sqrt_len / math.sqrt(2) / 8) * 8`,
modelled in exact real arithmetic.  `int(math.sqrt len)` is `Nat.sqrt len`,
and for a natural number `s`, `⌊(s : ℝ) / Real.sqrt 2 / 8⌋₊ = Nat.sqrt (2 * s ^ 2) / 16`
(proved below as `floor_div_sqrt_two_div_eight`), which gives this executable
form. -/
def plotWidth (len : Nat) : Nat := Nat.sqrt (2 * Nat.sqrt len ^ 2) / 16 * 8

/-- The height computation `h = int(len(colorized_bytes) / w)`
(`plot-elf.py` line 235).  When the computed width is `0` the source raises
`ZeroDivisionError`; Lean's `len / 0 = 0` stands in for that case, and the
theorems below assume a positive width. -/
def plotHeight (len : Nat) : Nat := len / plotWidth len

/-- `reshape(h, w, 3)` of a pixel buffer of exactly `h*w` pixels: `h` rows of
`w` pixels. -/
def reshape (buf : List Pix) (h w : Nat) : List (List Pix) :=
  (List.range h).map fun r => (buf.drop (r * w)).take w

/-- The per-file normalization of `plot_elf_files` (`plot-elf.py` lines
233-237): choose the shape, truncate the buffer to `w*h` pixels, reshape. -/
def plot_elf_file (buf : List Pix) : List (List Pix) :=
  reshape (buf.take (plotWidth buf.length * plotHeight buf.length))
    (plotHeight buf.length) (plotWidth buf.length)

/-- The mutable state of `parse_args` (`plot-elf.py` lines 247-288).

`PlottingOptions` (lines 30-32) declares `selected_parts: Set[str] = set()`
as a *class* attribute: every instance reads the same mutable set object, and
`result[f].selected_parts.update(...)` mutates that shared set in place.  The
field `shared` models that single class-level set.  `strip` is only ever
written through `result[f].strip |= ...`, an attribute *assignment* which
creates a per-instance attribute, so `strips` is a genuine per-file map
(initialized to the class default `False` when the file is added). -/
structure ParseState where
  files : List String
  strips : List (String × Bool)
  shared : List String
  current_filename : String
  global_strip : Bool
  global_selected_parts : List String
deriving DecidableEq, Repr

/-- The initial parser state: empty `result` dict, `current_filename = ""`,
empty global selector set, `global_strip = False`, and an empty class-level
`selected_parts` set. -/
def initParseState : ParseState :=
  { files := [], strips := [], shared := [], current_filename := ""
    global_strip := false, global_selected_parts := [] }

/-- Python `set.update`: add each element not already present (membership is
what the source observes; insertion order stands in for the unspecified set
order). -/
def setUpdate (s : List String) (t : List String) : List String :=
  t.foldl (fun acc x => if x ∈ acc then acc else acc ++ [x]) s

/-- `result[f].strip |= v`: or the flag into the entry for `f`. -/
def orStrip (strips : List (String × Bool)) (f : String) (v : Bool) :
    List (String × Bool) :=
  strips.map fun e => if e.1 = f then (e.1, e.2 || v) else e

/-- The per-instance `strip` attribute of file `f` after parsing (class
default `False` when never assigned). -/
def stripOf (st : ParseState) (f : String) : Bool :=
  (dictLookup st.strips f).getD false

/-- The `selected_parts` attribute of file `f` after parsing: every
`PlottingOptions` instance aliases the single class-level set. -/
def selected_partsOf (st : ParseState) (f : String) : List String := st.shared

/-- One iteration of the token loop of `parse_args` (`plot-elf.py` lines
260-283).  `os.path.isfile` is external, taken as the parameter `isFile`. -/
def parseToken (isFile : String → Bool) (st : ParseState) (arg : String) :
    Except String ParseState :=
  if strStartsWith arg "+" then
    let current_strip := strStartsWith arg "++"
    let current_selected_parts :=
      splitComma (if strStartsWith arg "++" then strDrop arg 2 else strDrop arg 1)
    if st.current_filename = "" then
      .ok { st with
            global_selected_parts := setUpdate st.global_selected_parts current_selected_parts
            global_strip := st.global_strip || current_strip }
    else
      .ok { st with
            shared := setUpdate st.shared current_selected_parts
            strips := orStrip st.strips st.current_filename current_strip }
  else if isFile arg then
    if arg ∈ st.files then
      .error ("Specified filename twice: \"" ++ arg ++ "\"")
    else
      .ok { st with
            files := st.files ++ [arg]
            strips := st.strips ++ [(arg, false)]
            current_filename := arg }
  else .error ("Not a valid file: \"" ++ arg ++ "\"")

/-- The token loop of `parse_args`; `error` exits the process at once, so an
error aborts the remaining iterations. -/
def parseLoop (isFile : String → Bool) : ParseState → List String → Except String ParseState
  | st, [] => .ok st
  | st, arg :: rest =>
    match parseToken isFile st arg with
    | .error e => .error e
    | .ok st2 => parseLoop isFile st2 rest

/-- The merge of the global options into every file's options after the token
loop (`plot-elf.py` lines 284-287). -/
def applyGlobals (st : ParseState) : ParseState :=
  if st.global_selected_parts.length ≠ 0 then
    st.files.foldl
      (fun acc f =>
        { acc with
          shared := setUpdate acc.shared acc.global_selected_parts
          strips := orStrip acc.strips f acc.global_strip }) st
  else st

/-- `parse_args` (`plot-elf.py` lines 247-288). -/
def parse_args (isFile : String → Bool) (args : List String) :
    Except String ParseState :=
  if args = [] then .error "No filenames given."
  else
    match parseLoop isFile initParseState args with
    | .error e => .error e
    | .ok st => .ok (applyGlobals st)

/-- The conclusion of claim C5: with the strip flag unset the buffer is
unchanged; with it set the result is the concatenation, in part order, of the
parts' pixel ranges, and its length is the sum of the parts' lengths. -/
def StripSpec (bytes : List Pix) (parts : List Part) : Prop :=
  strip_data bytes parts false = bytes ∧
  strip_data bytes parts true =
    (parts.map fun p => (bytes.drop p.offset).take p.length).flatten ∧
  (strip_data bytes parts true).length = (parts.map Part.length).sum

/-- The conclusion of claim C6 (amended) for a buffer of length `L`: the
width is `int(int(math.sqrt(L)) / math.sqrt(2) / 8) * 8` — the floor of the
*integer* square root divided by `sqrt 2` and `8`, times `8` — the height is
`L / w` rounded down, the width is a multiple of `8`, `w * h ≤ L`, and the
buffer is truncated to its first `w * h` pixels and reshaped to `h` rows of
`w` pixels. -/
def ShapeSpec (buf : List Pix) (L : Nat) : Prop :=
  plotWidth L = ⌊(Nat.sqrt L : ℝ) / Real.sqrt 2 / 8⌋₊ * 8 ∧
  plotWidth L % 8 = 0 ∧
  plotHeight L = L / plotWidth L ∧
  plotWidth L * plotHeight L ≤ L ∧
  plot_elf_file buf =
    reshape (buf.take (plotWidth L * plotHeight L)) (plotHeight L) (plotWidth L) ∧
  (plot_elf_file buf).length = plotHeight L ∧
  ∀ row ∈ plot_elf_file buf, row.length = plotWidth L

/-- The conclusion of claim C8: the legend lists one `(name, color)` entry
per part in processing order without deduplication; the pixel buffer keeps
its length; every pixel outside all parts' ranges stays the grayscale
broadcast `(b, b, b)` of its original byte; and every pixel inside the range
of exactly one part has each channel equal to the original byte multiplied by
that part's palette color channel, truncated to the `uint8` range. -/
def ColorizeSpec (md5 : String → Nat) (colors : Nat → RGB) (byte_data : List Nat)
    (parts : List Part) (saved : List (String × RGB)) : Prop :=
  (colorize_data md5 colors byte_data parts saved).2.1 =
    (parts.map fun p => (p.name, colors (md5 p.name % num_colors))) ∧
  (colorize_data md5 colors byte_data parts saved).1.length = byte_data.length ∧
  (∀ i b, byte_data.get? i = some b → (∀ p ∈ parts, ¬ inPart p i) →
    (colorize_data md5 colors byte_data parts saved).1.get? i = some (b, b, b)) ∧
  (∀ i b pre p post, byte_data.get? i = some b → parts = pre ++ p :: post →
    inPart p i → (∀ q ∈ pre, ¬ inPart q i) → (∀ q ∈ post, ¬ inPart q i) →
    (colorize_data md5 colors byte_data parts saved).1.get? i =
      some (chanMul b (colors (md5 p.name % num_colors)).1,
            chanMul b (colors (md5 p.name % num_colors)).2.1,
            chanMul b (colors (md5 p.name % num_colors)).2.2))

/-- The conclusion of claim C7 for one buffer `a` of the input collection:
padding to the maximum length succeeds, the result has exactly the maximum
length, its prefix is the original buffer and its tail is black (RGB zero). -/
def PadSpec (arrays : List (List Pix)) (a : List Pix) : Prop :=
  pad_array a (get_max_length arrays) =
    some (a ++ List.replicate (get_max_length arrays - a.length) (0, 0, 0)) ∧
  (a ++ List.replicate (get_max_length arrays - a.length) (0, 0, 0)).length =
    get_max_length arrays ∧
  (a ++ List.replicate (get_max_length arrays - a.length) (0, 0, 0)).take a.length = a ∧
  (a ++ List.replicate (get_max_length arrays - a.length) (0, 0, 0)).drop a.length =
    List.replicate (get_max_length arrays - a.length) (0, 0, 0)

end ElfPlotter

namespace ElfPlotter

/-! ### Supporting lemmas -/

theorem sectionLoop_get? (secs : List (String × Nat)) :
    ∀ po pl i : Nat,
      (sectionLoop po pl secs).get? i =
        (secs.get? i).map fun e =>
          Part.mk e.1 (po + pl + ((secs.take i).map Prod.snd).sum) e.2 := by
  induction secs with
  | nil => intro po pl i; simp [sectionLoop]
  | cons e rest ih =>
    intro po pl i
    obtain ⟨n, sz⟩ := e
    cases i with
    | zero => simp [sectionLoop]
    | succ i =>
      simp only [sectionLoop, List.get?_cons_succ, ih (po + pl) sz i,
        List.take_succ_cons, List.map_cons, List.sum_cons]
      cases h : rest.get? i with
      | none => simp [h]
      | some e2 => simp [h, Part.mk.injEq]; omega

theorem sectionLoop_map_length (secs : List (String × Nat)) :
    ∀ po pl : Nat, (sectionLoop po pl secs).map Part.length = secs.map Prod.snd := by
  induction secs with
  | nil => intro po pl; simp [sectionLoop]
  | cons e rest ih =>
    intro po pl
    obtain ⟨n, sz⟩ := e
    simp [sectionLoop, ih]

theorem filter_pos_map_length_sum (l : List Part) :
    ((l.filter fun p => 0 < p.length).map Part.length).sum = (l.map Part.length).sum := by
  induction l with
  | nil => simp
  | cons p rest ih =>
    by_cases h : 0 < p.length
    · simp [List.filter_cons, h, ih]
    · have h0 : p.length = 0 := by omega
      simp [List.filter_cons, h, ih, h0]

theorem foldl_append_map {α β : Type} (g : β → List α) (l : List β) :
    ∀ res : List α,
      l.foldl (fun r b => r ++ g b) res = res ++ (l.map g).flatten := by
  induction l with
  | nil => intro res; simp
  | cons b rest ih => intro res; simp [ih, List.append_assoc]

theorem filter_parts_inner (rmatch : String → String → Bool) (p : Part)
    (sels : List String) :
    ∀ res : List Part,
      sels.foldl (fun result filt =>
        if strStartsWith filt "/" && strEndsWith filt "/" then
          (if rmatch (strInner filt) p.name then result ++ [p] else result)
        else
          (if filt == p.name then result ++ [p] else result)) res
      = res ++ ((sels.filter fun f => selMatches rmatch f p.name).map fun _ => p) := by
  induction sels with
  | nil => intro res; simp
  | cons f rest ih =>
    intro res
    simp only [List.foldl_cons, List.filter_cons]
    have hstep :
        (if strStartsWith f "/" && strEndsWith f "/" then
          (if rmatch (strInner f) p.name then res ++ [p] else res)
        else
          (if f == p.name then res ++ [p] else res))
        = if selMatches rmatch f p.name then res ++ [p] else res := by
      unfold selMatches
      cases strStartsWith f "/" && strEndsWith f "/" <;> simp
    rw [hstep]
    cases h : selMatches rmatch f p.name with
    | false =>
      rw [if_neg (by simp [h]), ih res]
      simp
    | true =>
      rw [if_pos (by simp [h]), ih (res ++ [p])]
      simp [List.filter_cons, h, List.append_assoc]

theorem filter_parts_loop (rmatch : String → String → Bool) (sels : List String)
    (parts : List Part) :
    ∀ res : List Part,
      parts.foldl (fun result p =>
        sels.foldl (fun result filt =>
          if strStartsWith filt "/" && strEndsWith filt "/" then
            (if rmatch (strInner filt) p.name then result ++ [p] else result)
          else
            (if filt == p.name then result ++ [p] else result)) result) res
      = res ++ (parts.map fun p =>
          (sels.filter fun f => selMatches rmatch f p.name).map fun _ => p).flatten := by
  induction parts with
  | nil => intro res; simp
  | cons p rest ih =>
    intro res
    simp only [List.foldl_cons, List.map_cons, List.flatten_cons]
    rw [filter_parts_inner rmatch p sels res, ih, List.append_assoc]

theorem le_foldl_max (arrays : List (List Pix)) :
    ∀ init : Nat,
      init ≤ arrays.foldl (fun m a => if a.length > m then a.length else m) init := by
  induction arrays with
  | nil => intro init; simp
  | cons a rest ih =>
    intro init
    simp only [List.foldl_cons]
    refine le_trans ?_ (ih _)
    by_cases h : a.length > init <;> simp [h] <;> omega

theorem length_le_foldl_max (a : List Pix) :
    ∀ (arrays : List (List Pix)) (init : Nat), a ∈ arrays →
      a.length ≤ arrays.foldl (fun m x => if x.length > m then x.length else m) init := by
  intro arrays
  induction arrays with
  | nil => intro init ha; cases ha
  | cons x rest ih =>
    intro init ha
    simp only [List.foldl_cons]
    rcases List.mem_cons.1 ha with h | h
    · subst h
      refine le_trans ?_ (le_foldl_max rest _)
      by_cases hx : a.length > init
      · simp [hx]
      · simp only [if_neg hx]; omega
    · exact ih _ h

theorem length_le_get_max_length (arrays : List (List Pix)) (a : List Pix)
    (ha : a ∈ arrays) : a.length ≤ get_max_length arrays :=
  length_le_foldl_max a arrays 0 ha

/-! ### Claim theorems -/

/-- Claim C2: for a directory with header size `H`, sections of the listed
sizes, and program/section header entry sizes `P` and `S`, the part list
built by `get_parts` before filtering consists of the `Ehdr` part at offset
`0` with length `H`, one part per section whose offset is the running
accumulator `H +` (sum of the previous sections' sizes) and whose length is
the section's data size, then the `Phdr` and `Shdr` parts taken from the
directory's absolute fields; `extract_parts` removes exactly the zero-length
parts, and the remaining lengths sum to `H + L1 + ... + Ln + P + S`. -/
theorem extract_parts_spec (dir : ElfDirectory) :
    unfiltered_parts dir =
      Part.mk "Ehdr" 0 dir.e_ehsize :: sectionLoop 0 dir.e_ehsize dir.sections
        ++ [Part.mk "Phdr" dir.e_phoff dir.e_phentsize,
            Part.mk "Shdr" dir.e_shoff dir.e_shentsize] ∧
    (∀ i : Nat,
      (sectionLoop 0 dir.e_ehsize dir.sections).get? i =
        (dir.sections.get? i).map fun e =>
          Part.mk e.1 (dir.e_ehsize + ((dir.sections.take i).map Prod.snd).sum) e.2) ∧
    extract_parts dir = (unfiltered_parts dir).filter (fun p => 0 < p.length) ∧
    ((extract_parts dir).map Part.length).sum =
      dir.e_ehsize +
        (((dir.sections.map Prod.snd).sum + dir.e_phentsize) + dir.e_shentsize) := by
  refine ⟨rfl, ?_, rfl, ?_⟩
  · intro i
    rw [sectionLoop_get? dir.sections 0 dir.e_ehsize i]
    simp
  · unfold extract_parts
    rw [filter_pos_map_length_sum]
    unfold unfiltered_parts
    simp [sectionLoop_map_length]
    omega

/-- Claim C3 counterexample: the part named `abc` matches both the exact
selector `"abc"` and the regex selector `"/ab/"` (`re.match` anchors a
metacharacter-free pattern as a prefix test), and the nested loops of
`filter_parts` append it once per matching selector, so it appears twice in
the result rather than once as the claim states. -/
theorem filter_parts_once_counterexample :
    filter_parts reMatchLiteral [Part.mk "abc" 0 1] ["abc", "/ab/"] =
      [Part.mk "abc" 0 1, Part.mk "abc" 0 1] ∧
    filter_parts reMatchLiteral [Part.mk "abc" 0 1] ["abc", "/ab/"] ≠
      [Part.mk "abc" 0 1] := by
  refine ⟨rfl, ?_⟩
  decide

/-- Claim C3 (amended): for every parts list and selector list, if the
selector list is empty `filter_parts` returns the parts unchanged; otherwise
it returns the parts in input order, each part repeated once per selector
that matches it (instead of appearing exactly once), where a selector matches
by string equality with the part name or, when it both starts and ends with
`/`, by the regex matcher accepting the inner text against the part name;
the selectors are OR-combined. -/
theorem filter_parts_characterization (rmatch : String → String → Bool)
    (parts : List Part) (sels : List String) :
    filter_parts rmatch parts sels =
      if sels.length = 0 then parts
      else (parts.map fun p =>
        (sels.filter fun f => selMatches rmatch f p.name).map fun _ => p).flatten := by
  unfold filter_parts
  by_cases h : sels.length = 0
  · simp [h]
  · rw [if_neg h, if_neg h, filter_parts_loop rmatch sels parts []]
    simp

/-- Claim C5: with the strip flag unset `strip_data` returns the buffer
unchanged; with it set it returns the concatenation, in part order, of the
parts' pixel ranges `[offset, offset+length)`, whose total length is the sum
of the parts' lengths (the parts are assumed to lie inside the buffer, as
the ranges the claim selects must exist in it). -/
theorem strip_data_spec (bytes : List Pix) (parts : List Part)
    (h : ∀ p ∈ parts, p.offset + p.length ≤ bytes.length) :
    StripSpec bytes parts := by
  have htrue : strip_data bytes parts true =
      (parts.map fun p => (bytes.drop p.offset).take p.length).flatten := by
    unfold strip_data
    rw [if_pos rfl, foldl_append_map (fun p => (bytes.drop p.offset).take p.length) parts []]
    simp
  refine ⟨rfl, htrue, ?_⟩
  rw [htrue, List.length_flatten, List.map_map]
  apply congrArg
  apply List.map_congr_left
  intro p hp
  have := h p hp
  simp only [Function.comp_apply, List.length_take, List.length_drop]
  omega

/-- Witness for `strip_data_spec` at a concrete buffer and part list. -/
theorem strip_data_spec_witness :
    (∀ p ∈ [Part.mk ".text" 1 2],
      p.offset + p.length ≤ ([(1,1,1), (2,2,2), (3,3,3)] : List Pix).length) ∧
    StripSpec [(1,1,1), (2,2,2), (3,3,3)] [Part.mk ".text" 1 2] :=
  ⟨by decide, strip_data_spec _ _ (by decide)⟩

/-- Claim C7: padding a buffer of the input collection to the maximum length
over the collection succeeds, keeps the original pixels as a prefix, appends
black (RGB zero) pixels at the trailing end, and yields exactly the maximum
length, so all padded buffers share that length. -/
theorem pad_array_spec (arrays : List (List Pix)) (a : List Pix)
    (ha : a ∈ arrays) : PadSpec arrays a := by
  have hle := length_le_get_max_length arrays a ha
  refine ⟨?_, ?_, ?_, ?_⟩
  · unfold pad_array
    rw [if_pos hle]
  · simp only [List.length_append, List.length_replicate]
    omega
  · exact List.take_left a _
  · exact List.drop_left a _

/-- Witness for `pad_array_spec` at a concrete buffer collection. -/
theorem pad_array_spec_witness :
    ([(1,2,3)] : List Pix) ∈ [[(1,2,3)], [(4,5,6), (7,8,9)]] ∧
    PadSpec [[(1,2,3)], [(4,5,6), (7,8,9)]] [(1,2,3)] :=
  ⟨by decide, pad_array_spec _ _ (by decide)⟩

theorem dictLookup_mem {α : Type} (l : List (String × α)) (t : String) (c : α)
    (h : dictLookup l t = some c) : (t, c) ∈ l := by
  induction l with
  | nil => cases h
  | cons e rest ih =>
    obtain ⟨k, v⟩ := e
    by_cases hk : k = t
    · subst hk
      simp only [dictLookup, eq_self_iff_true, if_true, Option.some.injEq] at h
      subst h
      exact List.mem_cons_self _ _
    · simp only [dictLookup, if_neg hk] at h
      exact List.mem_cons_of_mem _ (ih h)

theorem get_color_spec (md5 : String → Nat) (colors : Nat → RGB)
    (saved : List (String × RGB)) (text : String)
    (h : RegistryOK md5 colors saved) :
    (get_color md5 colors saved text).1 = colors (md5 text % num_colors) ∧
    RegistryOK md5 colors (get_color md5 colors saved text).2 := by
  unfold get_color
  cases hl : dictLookup saved text with
  | none =>
    refine ⟨rfl, ?_⟩
    intro e he
    rcases List.mem_append.1 he with h1 | h2
    · exact h e h1
    · rw [List.mem_singleton.1 h2]
  | some c =>
    exact ⟨h (text, c) (dictLookup_mem saved text c hl), h⟩

theorem runCalls_invariant (md5 : String → Nat) (colors : Nat → RGB)
    (calls : List String) :
    ∀ saved : List (String × RGB), RegistryOK md5 colors saved →
      RegistryOK md5 colors
        (calls.foldl (fun saved t => (get_color md5 colors saved t).2) saved) := by
  induction calls with
  | nil => intro saved h; exact h
  | cons t rest ih =>
    intro saved h
    exact ih _ (get_color_spec md5 colors saved t h).2

theorem runCalls_ok (md5 : String → Nat) (colors : Nat → RGB)
    (calls : List String) : RegistryOK md5 colors (runCalls md5 colors calls) :=
  runCalls_invariant md5 colors calls [] (fun e he => absurd he (List.not_mem_nil e))

/-- Claim C1: after any sequence of `get_color` calls from the initial empty
cache (any insertion order, any call order, any number of distinct names),
`get_color` returns the palette entry at index `MD5(name) mod num_colors`
(`num_colors = 3600`), and an immediately repeated call on the resulting
cache returns the identical color — determinism and idempotence. -/
theorem get_color_deterministic (md5 : String → Nat) (colors : Nat → RGB)
    (calls : List String) (text : String) :
    (get_color md5 colors (runCalls md5 colors calls) text).1 =
      colors (md5 text % num_colors) ∧
    (get_color md5 colors
        (get_color md5 colors (runCalls md5 colors calls) text).2 text).1 =
      (get_color md5 colors (runCalls md5 colors calls) text).1 := by
  have h1 := get_color_spec md5 colors (runCalls md5 colors calls) text
    (runCalls_ok md5 colors calls)
  have h2 := get_color_spec md5 colors
    (get_color md5 colors (runCalls md5 colors calls) text).2 text h1.2
  exact ⟨h1.1, by rw [h2.1, h1.1]⟩

theorem writeRangeGo_get? (offset length : Nat) (color : RGB) (px : List Pix) :
    ∀ j i : Nat,
      (writeRangeGo offset length color j px).get? i =
        (px.get? i).map fun q =>
          if offset ≤ j + i ∧ j + i < offset + length then pixMul q color else q := by
  induction px with
  | nil => intro j i; simp [writeRangeGo]
  | cons q rest ih =>
    intro j i
    cases i with
    | zero => simp [writeRangeGo]
    | succ i =>
      have harith : j + 1 + i = j + (i + 1) := by omega
      simp only [writeRangeGo, List.get?_cons_succ, ih (j + 1) i, harith]

theorem writeRange_get? (px : List Pix) (offset length : Nat) (color : RGB)
    (i : Nat) :
    (writeRange px offset length color).get? i =
      (px.get? i).map fun q =>
        if offset ≤ i ∧ i < offset + length then pixMul q color else q := by
  unfold writeRange
  rw [writeRangeGo_get? offset length color px 0 i]
  simp

theorem writeRangeGo_length (offset length : Nat) (color : RGB) (px : List Pix) :
    ∀ j : Nat, (writeRangeGo offset length color j px).length = px.length := by
  induction px with
  | nil => intro j; rfl
  | cons q rest ih => intro j; simp [writeRangeGo, ih]

theorem colorizeGo_fst_length (md5 : String → Nat) (colors : Nat → RGB)
    (parts : List Part) :
    ∀ (px : List Pix) (saved : List (String × RGB)),
      (colorizeGo md5 colors px parts saved).1.length = px.length := by
  induction parts with
  | nil => intro px saved; rfl
  | cons p rest ih =>
    intro px saved
    simp only [colorizeGo]
    rw [ih]
    unfold writeRange
    exact writeRangeGo_length _ _ _ px 0

theorem colorizeGo_legend (md5 : String → Nat) (colors : Nat → RGB)
    (parts : List Part) :
    ∀ (px : List Pix) (saved : List (String × RGB)),
      RegistryOK md5 colors saved →
      (colorizeGo md5 colors px parts saved).2.1 =
        parts.map fun p => (p.name, colors (md5 p.name % num_colors)) := by
  induction parts with
  | nil => intro px saved _; rfl
  | cons p rest ih =>
    intro px saved h
    have hc := get_color_spec md5 colors saved p.name h
    simp only [colorizeGo, List.map_cons]
    rw [ih _ _ hc.2, hc.1]

theorem colorizeGo_outside (md5 : String → Nat) (colors : Nat → RGB)
    (parts : List Part) (i : Nat) :
    ∀ (px : List Pix) (saved : List (String × RGB)),
      (∀ p ∈ parts, ¬ inPart p i) →
      (colorizeGo md5 colors px parts saved).1.get? i = px.get? i := by
  induction parts with
  | nil => intro px saved _; rfl
  | cons p rest ih =>
    intro px saved hout
    simp only [colorizeGo]
    rw [ih _ _ fun q hq => hout q (List.mem_cons_of_mem p hq)]
    rw [writeRange_get?]
    have hp : ¬ (p.offset ≤ i ∧ i < p.offset + p.length) :=
      hout p (List.mem_cons_self p rest)
    cases px.get? i with
    | none => rfl
    | some q => simp [hp]

theorem colorizeGo_inside (md5 : String → Nat) (colors : Nat → RGB) (i : Nat)
    (v : Pix) (pre : List Part) :
    ∀ (p : Part) (post : List Part) (px : List Pix) (saved : List (String × RGB)),
      RegistryOK md5 colors saved →
      inPart p i → (∀ q ∈ pre, ¬ inPart q i) → (∀ q ∈ post, ¬ inPart q i) →
      px.get? i = some v →
      (colorizeGo md5 colors px (pre ++ p :: post) saved).1.get? i =
        some (pixMul v (colors (md5 p.name % num_colors))) := by
  induction pre with
  | nil =>
    intro p post px saved hok hin hpre hpost hv
    simp only [List.nil_append, colorizeGo]
    rw [colorizeGo_outside md5 colors post i _ _ hpost]
    rw [writeRange_get?, hv]
    have hc := (get_color_spec md5 colors saved p.name hok).1
    have hin2 : p.offset ≤ i ∧ i < p.offset + p.length := hin
    simp [hin2, hc]
  | cons q pre2 ih =>
    intro p post px saved hok hin hpre hpost hv
    simp only [List.cons_append, colorizeGo]
    refine ih p post _ _ (get_color_spec md5 colors saved q.name hok).2 hin
      (fun r hr => hpre r (List.mem_cons_of_mem q hr)) hpost ?_
    rw [writeRange_get?, hv]
    have hq : ¬ (q.offset ≤ i ∧ i < q.offset + q.length) :=
      hpre q (List.mem_cons_self q pre2)
    simp [hq]

/-- Claim C8: colorization touches only the pixels inside the parts' ranges —
every pixel outside all parts keeps its grayscale broadcast value `(b,b,b)`;
a pixel inside exactly one part's range has each channel equal to the
original byte multiplied by that part's color channel, truncated to the
`uint8` range; and one legend entry `(name, color)` is recorded per part in
processing order without deduplication. -/
theorem colorize_data_spec (md5 : String → Nat) (colors : Nat → RGB)
    (byte_data : List Nat) (parts : List Part) (saved : List (String × RGB))
    (h : RegistryOK md5 colors saved) :
    ColorizeSpec md5 colors byte_data parts saved := by
  refine ⟨?_, ?_, ?_, ?_⟩
  · exact colorizeGo_legend md5 colors parts _ saved h
  · unfold colorize_data
    rw [colorizeGo_fst_length]
    exact List.length_map byte_data _
  · intro i b hb hout
    unfold colorize_data
    rw [colorizeGo_outside md5 colors parts i _ saved hout, List.get?_map, hb]
    rfl
  · intro i b pre p post hb hdec hin hpre hpost
    subst hdec
    unfold colorize_data
    have hv : (byte_data.map fun b => ((b, b, b) : Pix)).get? i = some (b, b, b) := by
      rw [List.get?_map, hb]
      rfl
    rw [colorizeGo_inside md5 colors i (b, b, b) pre p post _ saved h hin hpre hpost hv]
    rfl

/-- Witness for `colorize_data_spec` at a concrete byte buffer, part list,
palette and hash. -/
theorem colorize_data_spec_witness :
    RegistryOK (fun _ => 0) (fun _ => (1, 1, 1)) [] ∧
    ColorizeSpec (fun _ => 0) (fun _ => (1, 1, 1)) [5, 7] [Part.mk "a" 0 1] [] :=
  ⟨fun e he => absurd he (List.not_mem_nil e),
   colorize_data_spec _ _ _ _ _ (fun e he => absurd he (List.not_mem_nil e))⟩

/-- Claim C9: the first file whose filtered part list is empty aborts
`get_parts` with the fatal message naming that file (modelling the
`error` call, which prints one message and exits with status 1); no result is
produced for it and the remaining files are never processed — the outcome is
the same error for every possible tail of the file list. -/
theorem get_parts_empty_fatal (rmatch : String → String → Bool)
    (options : String → List String) (pre : List (String × ElfDirectory))
    (f : String) (dir : ElfDirectory) (post : List (String × ElfDirectory))
    (hpre : ∀ e ∈ pre, filter_parts rmatch (extract_parts e.2) (options e.1) ≠ [])
    (hf : filter_parts rmatch (extract_parts dir) (options f) = []) :
    get_parts rmatch options (pre ++ (f, dir) :: post) =
      .error (noPartsMsg f (options f)) := by
  induction pre with
  | nil =>
    simp only [List.nil_append]
    unfold get_parts
    simp [hf]
  | cons e pre2 ih =>
    obtain ⟨g, d⟩ := e
    have hg : filter_parts rmatch (extract_parts d) (options g) ≠ [] :=
      hpre (g, d) (List.mem_cons_self _ _)
    have hrec := ih fun e he => hpre e (List.mem_cons_of_mem _ he)
    simp only [List.cons_append]
    unfold get_parts
    rw [if_neg (by simpa [List.length_eq_zero] using hg)]
    rw [hrec]

/-- Witness for `get_parts_empty_fatal`: a directory with no non-empty part
and a selector that matches nothing abort the run with the message naming
the file. -/
theorem get_parts_empty_fatal_witness :
    (∀ e ∈ ([] : List (String × ElfDirectory)),
      filter_parts (fun _ _ => false) (extract_parts e.2)
        ((fun _ => ["zz"]) e.1) ≠ []) ∧
    filter_parts (fun _ _ => false) (extract_parts ⟨0, [], 0, 0, 0, 0⟩) ["zz"] = [] ∧
    get_parts (fun _ _ => false) (fun _ => ["zz"]) [("a", ⟨0, [], 0, 0, 0, 0⟩)] =
      .error (noPartsMsg "a" ["zz"]) :=
  ⟨fun e he => absurd he (List.not_mem_nil e), rfl,
   get_parts_empty_fatal (fun _ _ => false) (fun _ => ["zz"]) [] "a"
     ⟨0, [], 0, 0, 0, 0⟩ [] (fun e he => absurd he (List.not_mem_nil e)) rfl⟩

theorem parseLoop_all_files (isFile : String → Bool) (pre : List String) :
    ∀ st : ParseState,
      (∀ a ∈ pre, isFile a = true ∧ strStartsWith a "+" = false) →
      (st.files ++ pre).Nodup →
      ∃ st2, parseLoop isFile st pre = .ok st2 ∧ st2.files = st.files ++ pre := by
  induction pre with
  | nil => intro st _ _; exact ⟨st, rfl, by simp⟩
  | cons a rest ih =>
    intro st hall hnd
    have ha := hall a (List.mem_cons_self a rest)
    have hnotmem : a ∉ st.files := fun hmem =>
      (List.disjoint_of_nodup_append hnd) hmem (List.mem_cons_self a rest)
    have hstep : parseToken isFile st a =
        .ok ⟨st.files ++ [a], st.strips ++ [(a, false)], st.shared, a,
             st.global_strip, st.global_selected_parts⟩ := by
      unfold parseToken
      rw [ha.2]
      simp [ha.1, hnotmem]
    have hnd2 : ((⟨st.files ++ [a], st.strips ++ [(a, false)], st.shared, a,
        st.global_strip, st.global_selected_parts⟩ : ParseState).files ++ rest).Nodup := by
      simpa [List.append_assoc] using hnd
    obtain ⟨st2, hloop, hfiles⟩ := ih _ (fun b hb => hall b (List.mem_cons_of_mem a hb)) hnd2
    refine ⟨st2, ?_, ?_⟩
    · simp only [parseLoop, hstep]
      exact hloop
    · rw [hfiles]
      simp [List.append_assoc]

theorem parseLoop_append (isFile : String → Bool) (xs ys : List String) :
    ∀ st : ParseState,
      parseLoop isFile st (xs ++ ys) =
        match parseLoop isFile st xs with
        | .error e => .error e
        | .ok st2 => parseLoop isFile st2 ys := by
  induction xs with
  | nil => intro st; rfl
  | cons a rest ih =>
    intro st
    simp only [List.cons_append, parseLoop]
    cases parseToken isFile st a with
    | error e => rfl
    | ok st2 => exact ih st2

/-- Claim C10: an argument list of existing filename tokens in which a
filename repeats (the earlier tokens being distinct files, so no other fatal
path triggers first) aborts `parse_args` with the error message naming the
duplicated filename; the file is neither processed twice nor merged. -/
theorem parse_args_duplicate_fatal (isFile : String → Bool) (pre : List String)
    (f : String) (post : List String)
    (hall : ∀ a ∈ pre, isFile a = true ∧ strStartsWith a "+" = false)
    (hnd : pre.Nodup) (hmem : f ∈ pre) :
    parse_args isFile (pre ++ f :: post) =
      .error ("Specified filename twice: \"" ++ f ++ "\"") := by
  obtain ⟨st2, hloop, hfiles⟩ := parseLoop_all_files isFile pre initParseState hall
    (by simpa [initParseState] using hnd)
  have hf := hall f hmem
  have hfm : f ∈ st2.files := by
    rw [hfiles]
    simpa [initParseState] using hmem
  have hne : pre ++ f :: post ≠ [] := by cases pre <;> simp
  have herr : parseLoop isFile st2 (f :: post) =
      .error ("Specified filename twice: \"" ++ f ++ "\"") := by
    simp only [parseLoop]
    have htok : parseToken isFile st2 f =
        .error ("Specified filename twice: \"" ++ f ++ "\"") := by
      unfold parseToken
      rw [hf.2]
      simp [hf.1, hfm]
    rw [htok]
  have hcomb : parseLoop isFile initParseState (pre ++ f :: post) =
      .error ("Specified filename twice: \"" ++ f ++ "\"") := by
    rw [parseLoop_append isFile pre (f :: post) initParseState, hloop]
    exact herr
  unfold parse_args
  rw [if_neg hne, hcomb]

/-- Witness for `parse_args_duplicate_fatal` at the argument list
`["a", "a"]` with every token an existing file. -/
theorem parse_args_duplicate_fatal_witness :
    (∀ a ∈ ["a"], (fun _ => true) a = true ∧ strStartsWith a "+" = false) ∧
    (["a"] : List String).Nodup ∧ "a" ∈ ["a"] ∧
    parse_args (fun _ => true) ["a", "a"] =
      .error "Specified filename twice: \"a\"" :=
  ⟨by decide, by decide, by decide,
   parse_args_duplicate_fatal (fun _ => true) ["a"] "a" [] (by decide)
     (by decide) (by decide)⟩

/-- Claim C4 (code bug): `PlottingOptions.selected_parts` is a mutable class
attribute, so `++.text,.data` scoped to file `a` also lands in file `b`'s
selector set — after parsing `["a", "++.text,.data", "b"]` the single shared
set holds `.text` and `.data`, and file `b` observes it even though the claim
(and the spec's intent) says `b`'s options are untouched.  Only the
per-instance `strip` flag stays scoped to `a`. -/
theorem parse_args_selector_leak :
    parse_args (fun _ => true) ["a", "++.text,.data", "b"] =
      .ok { files := ["a", "b"], strips := [("a", true), ("b", false)],
            shared := [".text", ".data"], current_filename := "b",
            global_strip := false, global_selected_parts := [] } ∧
    selected_partsOf
      { files := ["a", "b"], strips := [("a", true), ("b", false)],
        shared := [".text", ".data"], current_filename := "b",
        global_strip := false, global_selected_parts := [] } "b" =
      [".text", ".data"] ∧
    stripOf
      { files := ["a", "b"], strips := [("a", true), ("b", false)],
        shared := [".text", ".data"], current_filename := "b",
        global_strip := false, global_selected_parts := [] } "b" = false :=
  ⟨rfl, rfl, rfl⟩

theorem floor_div_sqrt_two_div_eight (s : Nat) :
    ⌊(s : ℝ) / Real.sqrt 2 / 8⌋₊ = Nat.sqrt (2 * s ^ 2) / 16 := by
  have h2 : Real.sqrt 2 * Real.sqrt 2 = 2 := Real.mul_self_sqrt (by norm_num)
  have hkey : (s : ℝ) / Real.sqrt 2 / 8 = Real.sqrt ((2 * s ^ 2 : Nat) : ℝ) / 16 := by
    push_cast
    rw [Real.sqrt_mul (by norm_num) ((s : ℝ) ^ 2), Real.sqrt_sq (by positivity)]
    rw [div_div, div_eq_div_iff (by positivity) (by norm_num)]
    rw [show Real.sqrt 2 * 8 = 8 * Real.sqrt 2 by ring,
      show (s : ℝ) * 16 = 16 * (s : ℝ) by ring]
    rw [show Real.sqrt 2 * (s : ℝ) * (8 * Real.sqrt 2) =
      (Real.sqrt 2 * Real.sqrt 2) * (8 * (s : ℝ)) by ring, h2]
    ring
  rw [hkey, show ((16 : ℝ)) = ((16 : Nat) : ℝ) by norm_num, Nat.floor_div_nat,
    Real.nat_floor_real_sqrt_eq_nat_sqrt]

/-- Claim C6 counterexample: the claim computes the width as
`floor(sqrt(L)/sqrt(2)/8)*8`, which at `L = 513` gives
`floor(sqrt(513)/sqrt(2)/8)*8 = 16`; but the code floors the square root
first (`sqrt_len = int(math.sqrt(len))`), and
`int(int(math.sqrt(513)) / math.sqrt(2) / 8) * 8 = int(22/math.sqrt(2)/8)*8 = 8`. -/
theorem plot_width_formula_counterexample :
    ⌊Real.sqrt 513 / Real.sqrt 2 / 8⌋₊ * 8 = 16 ∧ plotWidth 513 = 8 := by
  constructor
  · have hdiv : Real.sqrt 513 / Real.sqrt 2 = Real.sqrt (513 / 2) :=
      (Real.sqrt_div (by norm_num) 2).symm
    have h16 : (16 : ℝ) ≤ Real.sqrt (513 / 2) :=
      (Real.le_sqrt (by norm_num) (by norm_num)).2 (by norm_num)
    have h24 : Real.sqrt (513 / 2) < 24 := (Real.sqrt_lt' (by norm_num)).2 (by norm_num)
    have hfl : ⌊Real.sqrt (513 / 2) / 8⌋₊ = 2 := by
      rw [Nat.floor_eq_iff (by positivity)]
      constructor
      · push_cast
        linarith
      · push_cast
        linarith
    rw [hdiv, hfl]
  · norm_num [plotWidth]

/-- Claim C6 (amended): for a buffer of length `L` that reaches normalization
with a positive computed width, the shape satisfies
`w = floor(floor(sqrt(L)) / sqrt(2) / 8) * 8` (the integer square root is
taken *before* the division, unlike the claimed `floor(sqrt(L)/sqrt(2)/8)*8`)
and `h = floor(L / w)`, hence `w` is a multiple of 8 and `w * h ≤ L`, and the
buffer is truncated to its first `w * h` pixels and reshaped to `h` rows of
`w` pixels; for `w = 0` (every `L < 144`) the source raises
`ZeroDivisionError` instead. -/
theorem plot_shape_spec (L : Nat) (buf : List Pix) (hL : buf.length = L)
    (hw : 0 < plotWidth L) : ShapeSpec buf L := by
  have h4 : plotWidth L * plotHeight L ≤ L := by
    rw [mul_comm]
    exact Nat.div_mul_le_self L (plotWidth L)
  refine ⟨?_, ?_, rfl, h4, ?_, ?_, ?_⟩
  · rw [floor_div_sqrt_two_div_eight]
    rfl
  · exact Nat.mul_mod_left _ 8
  · subst hL
    rfl
  · subst hL
    simp [plot_elf_file, reshape]
  · intro row hrow
    subst hL
    obtain ⟨r, hr, rfl⟩ := List.mem_map.1 hrow
    have hrlt : r < plotHeight buf.length := List.mem_range.1 hr
    have hmul : r * plotWidth buf.length + plotWidth buf.length ≤
        plotWidth buf.length * plotHeight buf.length := by
      calc r * plotWidth buf.length + plotWidth buf.length
          = (r + 1) * plotWidth buf.length := by ring
        _ ≤ plotHeight buf.length * plotWidth buf.length :=
            Nat.mul_le_mul_right _ (by omega)
        _ = plotWidth buf.length * plotHeight buf.length := by ring
    simp only [List.length_take, List.length_drop]
    omega

/-- Witness for `plot_shape_spec` at a black buffer of 144 pixels (the
smallest length with a positive width: `w = 8`, `h = 18`, `w*h = 144`). -/
theorem plot_shape_spec_witness :
    (List.replicate 144 ((0, 0, 0) : Pix)).length = 144 ∧ 0 < plotWidth 144 ∧
    ShapeSpec (List.replicate 144 ((0, 0, 0) : Pix)) 144 :=
  ⟨by simp, by norm_num [plotWidth],
   plot_shape_spec 144 _ (by simp) (by norm_num [plotWidth])⟩

end ElfPlotter
